import Mathlib

/-!
Verification of the vault-secrets-reloader controller (bank-vaults).

This file shallowly embeds the core data model and operations of the
controller: the workload/secret store (collector.go, controller.go), the
vault reference parser (extractVaultSecretSegments, isAllDigits), the
annotation collectors (collectSecretsFromAnnotations), the secret-version
readers (getSecretVersionFromVault, getSecretInfoFromVault), the
reload-count bump (incrementReloadCountAnnotation) and one round of the
reloader worker (runReloader), and proves or refutes the specification
claims about them.

Strings are modelled as lists of characters (GoStr); Go maps are modelled
as association lists whose keys are unique, with Go's zero-value-on-missing
read semantics made explicit via lookupD.  Machine integers are modelled as
Int with explicit two's-complement wrapping where Go overflow matters.
Operations that can panic in Go (unchecked type assertions, writes to nil
maps) return a PanicOr result rather than being silently totalised.
-/

set_option autoImplicit false
set_option linter.unusedSectionVars false

/-- Characters of a Go string. -/
abbrev GoStr := List Char

/-- Outcome of a Go computation that may panic (nil-map write, failed
unchecked type assertion). -/
inductive PanicOr (α : Type) where
  | panicked : PanicOr α
  | ok : α → PanicOr α
  deriving DecidableEq, Repr

section AssocMap

variable {α : Type} {β : Type} [DecidableEq α]

/-- First-match lookup in an association list (Go map read, comma-ok form). -/
def lookupA (m : List (α × β)) (k : α) : Option β :=
  match m with
  | [] => none
  | (k', v) :: t => if k' = k then some v else lookupA t k

/-- Go map read without comma-ok: missing keys yield the zero value d. -/
def lookupD (m : List (α × β)) (k : α) (d : β) : β :=
  (lookupA m k).getD d

/-- Go map write m[k] = v: replace the existing entry or append a new one. -/
def insertA (m : List (α × β)) (k : α) (v : β) : List (α × β) :=
  match m with
  | [] => [(k, v)]
  | (k', v') :: t => if k' = k then (k, v) :: t else (k', v') :: insertA t k v

/-- Go delete(m, k): remove the entry for key k. -/
def eraseA (m : List (α × β)) (k : α) : List (α × β) :=
  match m with
  | [] => []
  | (k', v') :: t => if k' = k then t else (k', v') :: eraseA t k

/-- Keys of an association list. -/
def keysA (m : List (α × β)) : List α := m.map Prod.fst

end AssocMap

/-! ### Data model: workloads, pod templates, annotations -/

/-- Identity of a rollout-capable resource (struct workload, collector.go). -/
structure Workload where
  name : String
  ns : String
  kind : String
  deriving DecidableEq, Repr

/-- Workload kind constant DeploymentKind (controller.go). -/
def deploymentKind : String := "Deployment"

/-- Workload kind constant DaemonSetKind (controller.go). -/
def daemonSetKind : String := "DaemonSet"

/-- Workload kind constant StatefulSetKind (controller.go). -/
def statefulSetKind : String := "StatefulSet"

/-- The opt-in pod-template annotation key SecretReloadAnnotationName
(controller.go). -/
def secretReloadAnnotKey : String :=
  "alpha.vault.security.banzaicloud.io/reload-on-secret-change"

/-- The reload-count pod-template annotation key ReloadCountAnnotationName
(controller.go). -/
def reloadCountAnnotKey : String :=
  "alpha.vault.security.banzaicloud.io/secret-reload-count"

/-- The primary secret-paths annotation key, common.VaultFromPathAnnotation
from the external secrets-webhook library. -/
def vaultFromPathAnnotKey : String :=
  "secrets-webhook.security.bank-vaults.io/vault-from-path"

/-- The deprecated alias annotation key,
common.VaultEnvFromPathAnnotationDeprecated from the external
secrets-webhook library. -/
def vaultEnvFromPathAnnotKeyDeprecated : String :=
  "vault.security.banzaicloud.io/vault-env-from-path"

/-- A Go map of string annotations. -/
abbrev AnnotMap := List (String × String)

/-- A container environment variable (corev1.EnvVar, name and value). -/
structure EnvVar where
  name : String
  value : GoStr
  deriving DecidableEq, Repr

/-- A container: only its env list matters to the collector. -/
structure Container where
  env : List EnvVar
  deriving DecidableEq, Repr

/-- A pod template: annotations (nil-able, as in Go), containers and
init-containers. -/
structure PodTemplate where
  annots : Option AnnotMap
  containers : List Container
  initContainers : List Container
  deriving DecidableEq, Repr

/-- The workload-to-secret-paths map guarded by the store
(workloadSecretsMap, collector.go). -/
abbrev WorkloadSecretsMap := List (Workload × List GoStr)

/-! ### Go string primitives used by the source -/

/-- The reference sentinel, as character list. -/
def vaultSentinel : GoStr := "vault:".data

/-- Go strings.Index for character lists: index of the first occurrence of
needle, none when absent. -/
def goIndexOf (needle : GoStr) : GoStr → Option Nat
  | [] => if needle = [] then some 0 else none
  | c :: t =>
    if needle.isPrefixOf (c :: t) then some 0
    else (goIndexOf needle t).map (· + 1)

/-- Go strings.Split with a one-character separator: full split, empty
parts preserved; the empty string yields one empty part. -/
def goSplitOn (sep : Char) : GoStr → List GoStr
  | [] => [[]]
  | c :: t =>
    if c = sep then [] :: goSplitOn sep t
    else
      match goSplitOn sep t with
      | [] => [[c]]
      | h :: r => (c :: h) :: r

/-- Go strings.SplitN(s, sep-char, n): at most n parts, the last part keeps
the unsplit remainder. -/
def goSplitN (sep : Char) : Nat → GoStr → List GoStr
  | 0, _ => []
  | 1, s => [s]
  | n + 2, s =>
    if s.any (fun c => c = sep) then
      (s.takeWhile (fun c => ¬(c = sep))) ::
        goSplitN sep (n + 1) ((s.dropWhile (fun c => ¬(c = sep))).drop 1)
    else [s]

/-- Numeric value of a digit string, most significant digit first. -/
def digitsVal (s : GoStr) : Nat :=
  s.foldl (fun acc c => acc * 10 + (c.toNat - '0'.toNat)) 0

/-- Success condition of the Go standard library call
strconv.ParseUint(s, 10, 64): the string is non-empty, consists solely of
the ASCII digits 0-9 (base 10 admits no sign, no underscores), and its
value fits in an unsigned 64-bit integer. -/
def goParseUint64Ok (s : GoStr) : Bool :=
  decide (s ≠ []) && s.all (fun c => c.isDigit) && decide (digitsVal s < 2 ^ 64)

/-- isAllDigits (controller.go): non-empty and accepted by
strconv.ParseUint(value, 10, 64). -/
def isAllDigits (value : GoStr) : Bool :=
  if value = [] then false else goParseUint64Ok value

/-- Go strconv.ParseInt(s, 10, 64), also the behaviour of strconv.Atoi on a
64-bit platform and of json.Number.Int64: optional sign, then ASCII digits,
value within the signed 64-bit range; none models a non-nil error. -/
def goParseInt64 (s : GoStr) : Option Int :=
  let signDigits : Int × GoStr :=
    match s with
    | '+' :: t => (1, t)
    | '-' :: t => (-1, t)
    | _ => (1, s)
  if signDigits.2 = [] then none
  else if ¬(signDigits.2.all (fun c => c.isDigit)) then none
  else
    let v : Int := signDigits.1 * (digitsVal signDigits.2 : Int)
    if v < -(2 ^ 63) then none
    else if 2 ^ 63 - 1 < v then none
    else some v

/-- Two's-complement wrap of a 64-bit signed integer, the behaviour of Go
integer arithmetic on overflow. -/
def wrap64 (n : Int) : Int := (n + 2 ^ 63) % 2 ^ 64 - 2 ^ 63

/-- Go strconv.Itoa: decimal representation with a leading minus sign for
negative values. -/
def goItoa (n : Int) : String :=
  if n < 0 then ⟨'-' :: Nat.toDigits 10 (-n).toNat⟩
  else ⟨Nat.toDigits 10 n.toNat⟩

/-! ### Reference parser (controller.go: extractVaultSecretSegments) -/

/-- A parsed reference segment (struct vaultSecretSegment, controller.go). -/
structure VaultSecretSegment where
  path : GoStr
  isVersioned : Bool
  deriving DecidableEq, Repr

/-- Loop body of extractVaultSecretSegments (controller.go): classify the
text of one segment (between one vault: sentinel and the next).  Yields
none when the segment has no '#' or an empty path, in which case the Go
loop emits nothing and continues. -/
def classifySegment (segment : GoStr) : Option VaultSecretSegment :=
  match goIndexOf ['#'] segment with
  | none => none
  | some firstHash =>
    let path := segment.take firstHash
    if path = [] then none
    else
      let remainder := segment.drop (firstHash + 1)
      let isVersioned :=
        if remainder = [] then false
        else
          let parts := goSplitOn '#' remainder
          if 2 ≤ parts.length then
            let lastPart := parts.getLastD []
            if lastPart ≠ [] ∧ isAllDigits lastPart = true then true else false
          else false
      some { path := path, isVersioned := isVersioned }

/-- Loop of extractVaultSecretSegments (controller.go): scan for every
vault: sentinel; each segment runs to the next sentinel or the end of the
value; emit the classified segment when it has a '#' and a non-empty path.
The second argument is the not-yet-searched suffix value[searchIndex:],
which shrinks by at least the sentinel length on every iteration; the fuel
makes the recursion structural and is irrelevant once it covers the
suffix length. -/
def extractSegmentsGo (fuel : Nat) (rest : GoStr) : List VaultSecretSegment :=
  match fuel with
  | 0 => []
  | fuel + 1 =>
    match goIndexOf vaultSentinel rest with
    | none => []
    | some idx =>
      let afterStart := rest.drop (idx + 6)
      let segment :=
        match goIndexOf vaultSentinel afterStart with
        | some next => afterStart.take next
        | none => afterStart
      (match classifySegment segment with
       | some seg => [seg]
       | none => []) ++ extractSegmentsGo fuel afterStart

/-- extractVaultSecretSegments (controller.go), entered at searchIndex 0. -/
def extractVaultSecretSegments (value : GoStr) : List VaultSecretSegment :=
  extractSegmentsGo value.length value

/-- The raw segment texts visited by the extractVaultSecretSegments loop,
in order, before classification. -/
def segmentTextsGo (fuel : Nat) (rest : GoStr) : List GoStr :=
  match fuel with
  | 0 => []
  | fuel + 1 =>
    match goIndexOf vaultSentinel rest with
    | none => []
    | some idx =>
      let afterStart := rest.drop (idx + 6)
      let segment :=
        match goIndexOf vaultSentinel afterStart with
        | some next => afterStart.take next
        | none => afterStart
      segment :: segmentTextsGo fuel afterStart

/-- The raw segment texts of a whole value. -/
def segmentTexts (value : GoStr) : List GoStr :=
  segmentTextsGo value.length value

/-- The versioned condition exactly as the specification words it (for
comparison with the code): at least one additional '#'-part after the
path, whose last part is non-empty and consists entirely of ASCII digits
(with no bound on its magnitude). -/
def specVersionedAllDigits (segment : GoStr) : Bool :=
  match goIndexOf ['#'] segment with
  | none => false
  | some firstHash =>
    let remainder := segment.drop (firstHash + 1)
    if remainder = [] then false
    else
      let parts := goSplitOn '#' remainder
      if 2 ≤ parts.length then
        let lastPart := parts.getLastD []
        decide (lastPart ≠ []) && lastPart.all (fun c => c.isDigit)
      else false

/-- The versioned condition the code actually decides: as the spec words
it, plus the requirement that the digit string fits in an unsigned 64-bit
integer (from strconv.ParseUint inside isAllDigits). -/
def amendedVersionedCond (segment : GoStr) : Bool :=
  match goIndexOf ['#'] segment with
  | none => false
  | some firstHash =>
    let remainder := segment.drop (firstHash + 1)
    if remainder = [] then false
    else
      let parts := goSplitOn '#' remainder
      if 2 ≤ parts.length then
        let lastPart := parts.getLastD []
        decide (lastPart ≠ []) && lastPart.all (fun c => c.isDigit) &&
          decide (digitsVal lastPart < 2 ^ 64)
      else false

/-! ### Annotation collectors -/

/-- One annotation entry's contribution: the inner loop shared by both
branches of collectSecretsFromAnnotations (controller.go) parses the entry
and keeps the paths of unversioned segments. -/
def annotEntryUnversionedPaths (secretPath : GoStr) : List GoStr :=
  (extractVaultSecretSegments secretPath).filterMap
    (fun seg => if seg.isVersioned then none else some seg.path)

/-- collectSecretsFromAnnotations (controller.go): parse the primary
annotation value entry by comma-separated entry; consult the deprecated
alias only when that produced no paths. -/
def collectSecretsFromAnnotations (annotations : AnnotMap) : List GoStr :=
  let secretPaths := lookupD annotations vaultFromPathAnnotKey ""
  let fromPrimary : List GoStr :=
    if secretPaths ≠ "" then
      (goSplitOn ',' secretPaths.data).flatMap annotEntryUnversionedPaths
    else []
  if fromPrimary = [] then
    let deprecatedPaths := lookupD annotations vaultEnvFromPathAnnotKeyDeprecated ""
    if deprecatedPaths ≠ "" then
      (goSplitOn ',' deprecatedPaths.data).flatMap annotEntryUnversionedPaths
    else []
  else fromPrimary

/-- unversionedSecretValue (collector.go): SplitN on '#' with limit 3
yields exactly two parts, i.e. the value has exactly one '#'. -/
def unversionedSecretValue (value : GoStr) : Bool :=
  decide ((goSplitN '#' 3 value).length = 2)

/-- unversionedAnnotationSecretValue (collector.go, controller.go): SplitN
on '#' with limit 2 yields one part, i.e. the value has no '#'. -/
def unversionedAnnotationSecretValue (value : GoStr) : Bool :=
  decide ((goSplitN '#' 2 value).length = 1)

/-- collectSecretsFromAnnotations in its earlier form (collector.go):
keep each comma-separated entry verbatim when it has no '#'; consult the
deprecated alias only when the primary produced no paths. -/
def collectSecretsFromAnnotationsLegacy (annotations : AnnotMap) : List GoStr :=
  let secretPaths := lookupD annotations vaultFromPathAnnotKey ""
  let fromPrimary : List GoStr :=
    if secretPaths ≠ "" then
      (goSplitOn ',' secretPaths.data).filter
        (fun sp => unversionedAnnotationSecretValue sp = true)
    else []
  if fromPrimary = [] then
    let deprecatedPaths := lookupD annotations vaultEnvFromPathAnnotKeyDeprecated ""
    if deprecatedPaths ≠ "" then
      (goSplitOn ',' deprecatedPaths.data).filter
        (fun sp => unversionedAnnotationSecretValue sp = true)
    else []
  else fromPrimary

/-! ### Env-var collector (collector.go, regexp-based form) -/

/-- Models common.HasVaultPrefix from the external secrets-webhook library:
the value starts with the vault sentinel, directly or after the inline
mutation marker. -/
def hasVaultPfx (value : GoStr) : Bool :=
  vaultSentinel.isPrefixOf value || (">>vault:".data).isPrefixOf value

/-- Lazy capture of the regexp vault:(.*?)# from right after a vault:
occurrence: the shortest run of characters before a '#', failing on a
newline or the end of the string (the regexp dot excludes newlines). -/
def vaultCaptureFrom : GoStr → Option GoStr
  | [] => none
  | c :: t =>
    if c = '#' then some []
    else if c = '\n' then none
    else (vaultCaptureFrom t).map (fun cap => c :: cap)

/-- Go regexp FindStringSubmatch with pattern vault:(.*?)#, capture group
1: scan for the leftmost sentinel occurrence from which a '#' is reachable
without a newline; none models a nil match (indexing a nil match panics). -/
def findVaultCaptureLazy : GoStr → Option GoStr
  | [] => none
  | c :: t =>
    if vaultSentinel.isPrefixOf (c :: t) then
      match vaultCaptureFrom ((c :: t).drop 6) with
      | some cap => some cap
      | none => findVaultCaptureLazy t
    else findVaultCaptureLazy t

/-- Body of collectSecretsFromContainerEnvVars (collector.go) over the
flattened env values: values guarded by HasVaultPrefix and
unversionedSecretValue contribute the regexp capture when non-empty; a nil
match makes the unchecked index [1] panic. -/
def envValuesPathsLegacy : List GoStr → PanicOr (List GoStr)
  | [] => .ok []
  | v :: rest =>
    if hasVaultPfx v = true ∧ unversionedSecretValue v = true then
      match findVaultCaptureLazy v with
      | none => .panicked
      | some secret =>
        match envValuesPathsLegacy rest with
        | .panicked => .panicked
        | .ok others => .ok ((if secret ≠ [] then [secret] else []) ++ others)
    else envValuesPathsLegacy rest

/-- collectSecretsFromContainerEnvVars (collector.go): iterate containers
and their env values in order. -/
def collectSecretsFromContainerEnvVarsLegacy (containers : List Container) :
    PanicOr (List GoStr) :=
  envValuesPathsLegacy (containers.flatMap (fun c => c.env.map (fun e => e.value)))

/-! ### Sorting and de-duplication (slices.Sort, slices.Compact) -/

/-- Character-wise lexicographic order on Go strings (byte-wise for the
ASCII data the collector handles). -/
def goStrLe : GoStr → GoStr → Bool
  | [], _ => true
  | _ :: _, [] => false
  | c :: ct, d :: dt => if c = d then goStrLe ct dt else decide (c.toNat < d.toNat)

/-- Insert into a sorted list of strings. -/
def goInsertSorted (x : GoStr) : List GoStr → List GoStr
  | [] => [x]
  | y :: t => if goStrLe x y then x :: y :: t else y :: goInsertSorted x t

/-- slices.Sort on a string list, modelled by insertion sort (equal strings
are identical, so any correct sort yields the same list). -/
def goSortStrs : List GoStr → List GoStr
  | [] => []
  | x :: t => goInsertSorted x (goSortStrs t)

/-- slices.Compact: collapse runs of equal adjacent elements. -/
def goCompact : List GoStr → List GoStr
  | [] => []
  | [x] => [x]
  | x :: y :: t => if x = y then goCompact (y :: t) else x :: goCompact (y :: t)

/-- collectSecrets (collector.go): env-var paths of containers then
init-containers, then annotation paths, sorted and de-duplicated. -/
def collectSecretsLegacy (template : PodTemplate) : PanicOr (List GoStr) :=
  let containers := template.containers ++ template.initContainers
  match collectSecretsFromContainerEnvVarsLegacy containers with
  | .panicked => .panicked
  | .ok envPaths =>
    .ok (goCompact (goSortStrs
      (envPaths ++ collectSecretsFromAnnotationsLegacy (template.annots.getD []))))

/-! ### Collector event handlers (controller.go) -/

/-- An object delivered by an informer event; the controller recognises the
three workload kinds and rejects everything else. -/
inductive InformerObject where
  | deployment (name ns : String) (template : PodTemplate)
  | daemonSet (name ns : String) (template : PodTemplate)
  | statefulSet (name ns : String) (template : PodTemplate)
  | unsupported
  deriving DecidableEq, Repr

/-- Workload identity and pod template of a recognised informer object. -/
def informerWorkloadData : InformerObject → Option (Workload × PodTemplate)
  | .deployment name ns template => some ({ name := name, ns := ns, kind := deploymentKind }, template)
  | .daemonSet name ns template => some ({ name := name, ns := ns, kind := daemonSetKind }, template)
  | .statefulSet name ns template => some ({ name := name, ns := ns, kind := statefulSetKind }, template)
  | .unsupported => none

/-- collectWorkloadSecrets (collector.go): store the collected paths under
the workload; when no paths were found, log and return without touching
the store. -/
def collectWorkloadSecrets (store : WorkloadSecretsMap) (w : Workload)
    (template : PodTemplate) : PanicOr WorkloadSecretsMap :=
  match collectSecretsLegacy template with
  | .panicked => .panicked
  | .ok paths => if paths = [] then .ok store else .ok (insertA store w paths)

/-- handleObject (controller.go): on add or update, skip objects whose pod
template does not carry the opt-in annotation with value "true"; otherwise
collect.  Unsupported object types are logged and skipped. -/
def handleObject (store : WorkloadSecretsMap) (obj : InformerObject) :
    PanicOr WorkloadSecretsMap :=
  match informerWorkloadData obj with
  | none => .ok store
  | some (workloadData, podTemplateSpec) =>
    if lookupD (podTemplateSpec.annots.getD []) secretReloadAnnotKey "" ≠ "true" then
      .ok store
    else collectWorkloadSecrets store workloadData podTemplateSpec

/-- handleObjectDelete (controller.go): on delete, remove the workload from
the store, but only when the pod template carries the opt-in annotation
with value "true". -/
def handleObjectDelete (store : WorkloadSecretsMap) (obj : InformerObject) :
    WorkloadSecretsMap :=
  match informerWorkloadData obj with
  | none => store
  | some (workloadData, podTemplateSpec) =>
    if lookupD (podTemplateSpec.annots.getD []) secretReloadAnnotKey "" ≠ "true" then
      store
    else eraseA store workloadData

/-! ### Vault read and classification (collector.go) -/

/-- A dynamically typed Go value inside the response data
(map of string to empty-interface values). -/
inductive GoValue where
  | strMap (entries : List (String × GoValue))
  | jsonNumber (s : GoStr)
  | otherValue

/-- The fields of a vaultapi.Secret the controller consults. -/
structure VaultSecret where
  leaseID : String
  leaseDuration : Int
  renewable : Bool
  data : List (String × GoValue)

/-- Outcome of vaultClient.Read(path): transport error, nil secret, or a
secret value. -/
inductive VaultReadOutcome where
  | failed
  | missing
  | found (secret : VaultSecret)

/-- Error taxonomy of the secret readers. -/
inductive SecretReadErr where
  | readFailed
  | notFound
  | missingMetadata
  | missingVersionField
  | versionParseFailed
  deriving DecidableEq, Repr

/-- getSecretVersionFromVault (collector.go): read the KV version with
unchecked type assertions; a missing or ill-typed metadata map or version
field makes the assertion panic rather than return an error. -/
def getSecretVersionFromVault (outcome : VaultReadOutcome) :
    PanicOr (Except SecretReadErr Int) :=
  match outcome with
  | .failed => .ok (.error .readFailed)
  | .missing => .ok (.error .notFound)
  | .found secret =>
    match lookupA secret.data "metadata" with
    | some (.strMap meta) =>
      match lookupA meta "version" with
      | some (.jsonNumber ns) =>
        match goParseInt64 ns with
        | some v => .ok (.ok v)
        | none => .ok (.error .versionParseFailed)
      | some _ => .panicked
      | none => .panicked
    | some _ => .panicked
    | none => .panicked

/-- A dynamic-secret lease descriptor (struct DynamicSecretLease,
collector.go); the expiry is now plus the lease duration. -/
structure DynamicSecretLease where
  leaseID : String
  leaseDuration : Int
  leaseExpiry : Int
  secretPath : GoStr
  renewable : Bool
  deriving DecidableEq, Repr

/-- The classified read result (struct SecretInfo, collector.go). -/
structure SecretInfo where
  version : Int
  isKV : Bool
  isDynamic : Bool
  leaseInfo : Option DynamicSecretLease
  deriving DecidableEq, Repr

/-- getSecretInfoFromVault (collector.go): lease id present means dynamic;
otherwise the response must carry a well-typed metadata.version, checked
with comma-ok assertions that return classification errors instead of
panicking. -/
def getSecretInfoFromVault (now : Int) (secretPath : GoStr)
    (outcome : VaultReadOutcome) : Except SecretReadErr SecretInfo :=
  match outcome with
  | .failed => .error .readFailed
  | .missing => .error .notFound
  | .found secret =>
    if secret.leaseID ≠ "" then
      .ok { version := 0, isKV := false, isDynamic := true,
            leaseInfo := some {
              leaseID := secret.leaseID,
              leaseDuration := secret.leaseDuration,
              leaseExpiry := now + secret.leaseDuration,
              secretPath := secretPath,
              renewable := secret.renewable } }
    else
      match lookupA secret.data "metadata" with
      | some (.strMap meta) =>
        match lookupA meta "version" with
        | some (.jsonNumber ns) =>
          match goParseInt64 ns with
          | some v => .ok { version := v, isKV := true, isDynamic := false, leaseInfo := none }
          | none => .error .versionParseFailed
        | some _ => .error .missingVersionField
        | none => .error .missingVersionField
      | some _ => .error .missingMetadata
      | none => .error .missingMetadata

/-! ### Reload-count annotation bump (reloader.go) -/

/-- incrementReloadCountAnnotation (reloader.go): read the current count
from the pod template annotations (a nil map reads as empty), start at "1"
when absent, empty or unparseable, otherwise increment with Go 64-bit
arithmetic; the final write panics when the annotation map is nil. -/
def incrementReloadCountAnnot (annotations : Option AnnotMap) : PanicOr AnnotMap :=
  let reloadCount : String :=
    match annotations with
    | none => ""
    | some m => lookupD m reloadCountAnnotKey ""
  let version : String :=
    if reloadCount ≠ "" then
      match goParseInt64 reloadCount.data with
      | some count => goItoa (wrap64 (count + 1))
      | none => "1"
    else "1"
  match annotations with
  | none => .panicked
  | some m => .ok (insertA m reloadCountAnnotKey version)

/-! ### One reloader round (reloader.go: runReloader) -/

/-- Result of reading one tracked path this round. -/
inductive VaultVersionRead where
  | ok (version : Int)
  | notFound
  | failed
  deriving DecidableEq, Repr

/-- Whether the read produced a version. -/
def VaultVersionRead.isOk : VaultVersionRead → Bool
  | .ok _ => true
  | _ => false

/-- The two maps runReloader builds during a round. -/
structure ReloaderRoundState where
  workloadsToReload : List Workload
  newSecretVersions : List (GoStr × Int)
  deriving DecidableEq, Repr

/-- Mark a workload for reload: workloadsToReload is a Go map used as a
set, so marking is idempotent. -/
def markWorkload (marked : List Workload) (w : Workload) : List Workload :=
  if w ∈ marked then marked else marked ++ [w]

/-- The body of the per-path comparison loop of runReloader (reloader.go):
skip a path whose read failed (NotFound is logged per the ignore flag,
other errors are logged; either way the round continues); otherwise record
the current version in the fresh map, and when the stored version is
non-zero and differs from the current one, mark every workload listed
under the path. -/
def reloaderStep (read : GoStr → VaultVersionRead)
    (secretVersions : List (GoStr × Int))
    (st : ReloaderRoundState) (e : GoStr × List Workload) : ReloaderRoundState :=
  match read e.1 with
  | .notFound => st
  | .failed => st
  | .ok currentVersion =>
    let stored := lookupD secretVersions e.1 0
    if stored = 0 then
      { st with newSecretVersions := insertA st.newSecretVersions e.1 currentVersion }
    else if stored = currentVersion then
      { st with newSecretVersions := insertA st.newSecretVersions e.1 currentVersion }
    else
      { workloadsToReload := e.2.foldl markWorkload st.workloadsToReload,
        newSecretVersions := insertA st.newSecretVersions e.1 currentVersion }

/-- The per-path comparison loop of runReloader (reloader.go), over the
secret-to-workloads snapshot.  The workloads of the resulting set are then
reloaded once each, and newSecretVersions replaces the stored map
wholesale at the end of the round. -/
def runReloaderRound (read : GoStr → VaultVersionRead)
    (secretVersions : List (GoStr × Int))
    (entries : List (GoStr × List Workload)) : ReloaderRoundState :=
  entries.foldl (reloaderStep read secretVersions)
    { workloadsToReload := [], newSecretVersions := [] }

/-! ### Dynamic-TTL restart check -/

/-- Per-workload tracking state (struct workloadTrackingInfo,
controller.go): last restart time and the shortest dynamic TTL in seconds
(0 when the workload has no dynamic secrets). -/
structure WorkloadTrackingInfo where
  lastRestartTime : Int
  shortestDynamicTTL : Int
  deriving DecidableEq, Repr

/-- Modelled from the spec: Phase B of the TTL-aware reloader round, whose
runReloader body is not part of the sources (only its tests, the Controller
fields and the collector side are).  For each workload with a tracking
entry and a non-zero shortest dynamic TTL, mark it for restart when
elapsed = now minus lastRestartTime is at least threshold times the TTL,
unless it is already marked; workloads without a tracking entry are
skipped. -/
def phaseBMarkTTL (threshold : ℚ) (now : Int)
    (tracking : List (Workload × WorkloadTrackingInfo))
    (workloads : List Workload) (marked : List Workload) : List Workload :=
  workloads.foldl
    (fun acc w =>
      match lookupA tracking w with
      | none => acc
      | some info =>
        if info.shortestDynamicTTL ≠ 0 ∧
            threshold * (info.shortestDynamicTTL : ℚ) ≤ ((now - info.lastRestartTime : Int) : ℚ)
        then markWorkload acc w
        else acc)
    marked

/-! ### The store, with Go map aliasing made explicit (collector.go,
controller.go) -/

/-- A heap of Go map values: a workloadSecrets struct holds a reference
into it, and Go map values returned without copying alias the same cell. -/
structure GoHeap where
  cells : List WorkloadSecretsMap
  deriving DecidableEq, Repr

/-- Dereference a Go map reference. -/
def readCell (h : GoHeap) (r : Nat) : WorkloadSecretsMap :=
  h.cells.getD r []

/-- Overwrite the cell a reference points to. -/
def writeCell (h : GoHeap) (r : Nat) (v : WorkloadSecretsMap) : GoHeap :=
  { cells := h.cells.set r v }

/-- The workloadSecrets struct: it owns one reference to its internal map. -/
structure WorkloadSecretsHandle where
  mapRef : Nat
  deriving DecidableEq, Repr

/-- Store (collector.go): under the write lock, set the workload's entry in
the internal map. -/
def storeWorkloadSecrets (h : GoHeap) (st : WorkloadSecretsHandle)
    (w : Workload) (secrets : List GoStr) : GoHeap :=
  writeCell h st.mapRef (insertA (readCell h st.mapRef) w secrets)

/-- Delete (collector.go): under the write lock, delete the workload's
entry from the internal map. -/
def deleteWorkloadSecrets (h : GoHeap) (st : WorkloadSecretsHandle)
    (w : Workload) : GoHeap :=
  writeCell h st.mapRef (eraseA (readCell h st.mapRef) w)

/-- GetWorkloadSecretsMap (collector.go, controller.go): return the
internal map itself, without lock and without copying, i.e. the reference,
not the value. -/
def getWorkloadSecretsMap (st : WorkloadSecretsHandle) : Nat :=
  st.mapRef

/-- The double loop inside GetSecretWorkloadsMap (collector.go,
controller.go): invert the workload-to-secrets map by appending each
workload to the list of every path it references. -/
def buildSecretWorkloads (m : WorkloadSecretsMap) : List (GoStr × List Workload) :=
  m.foldl
    (fun acc entry =>
      entry.2.foldl
        (fun acc2 secretPath =>
          insertA acc2 secretPath (lookupD acc2 secretPath [] ++ [entry.1]))
        acc)
    []

/-- GetSecretWorkloadsMap (collector.go, controller.go): build a fresh
inverted map from the current internal map, under the lock. -/
def getSecretWorkloadsMap (h : GoHeap) (st : WorkloadSecretsHandle) :
    List (GoStr × List Workload) :=
  buildSecretWorkloads (readCell h st.mapRef)

/-- A mutation of the store. -/
inductive StoreOp where
  | storeOp (w : Workload) (secrets : List GoStr)
  | deleteOp (w : Workload)
  deriving DecidableEq, Repr

/-- Apply one mutation to the heap through the store's reference. -/
def applyStoreOp (st : WorkloadSecretsHandle) (h : GoHeap) : StoreOp → GoHeap
  | .storeOp w secrets => storeWorkloadSecrets h st w secrets
  | .deleteOp w => deleteWorkloadSecrets h st w

/-- Apply a sequence of mutations to the heap. -/
def applyStoreOps (st : WorkloadSecretsHandle) (h : GoHeap)
    (ops : List StoreOp) : GoHeap :=
  ops.foldl (applyStoreOp st) h

/-- The same mutation as a pure function on map values. -/
def applyStoreOpPure (m : WorkloadSecretsMap) : StoreOp → WorkloadSecretsMap
  | .storeOp w secrets => insertA m w secrets
  | .deleteOp w => eraseA m w

/-- Apply a sequence of mutations to a map value. -/
def applyStoreOpsPure (m : WorkloadSecretsMap) (ops : List StoreOp) :
    WorkloadSecretsMap :=
  ops.foldl applyStoreOpPure m

/-- The primary branch of collectSecretsFromAnnotations: the unversioned
paths contributed by the primary annotation key's comma-separated entries
(empty when the key is absent or empty). -/
def primaryAnnotPaths (annotations : AnnotMap) : List GoStr :=
  let secretPaths := lookupD annotations vaultFromPathAnnotKey ""
  if secretPaths ≠ "" then
    (goSplitOn ',' secretPaths.data).flatMap annotEntryUnversionedPaths
  else []

/-- The fallback branch of collectSecretsFromAnnotations: the unversioned
paths contributed by the deprecated alias key. -/
def deprecatedAnnotPaths (annotations : AnnotMap) : List GoStr :=
  let deprecatedPaths := lookupD annotations vaultEnvFromPathAnnotKeyDeprecated ""
  if deprecatedPaths ≠ "" then
    (goSplitOn ',' deprecatedPaths.data).flatMap annotEntryUnversionedPaths
  else []

/-! ### Lemmas about the association-list map model -/

section AssocMapLemmas

variable {α : Type} {β : Type} [DecidableEq α]

@[simp] theorem keysA_nil : keysA ([] : List (α × β)) = [] := rfl

@[simp] theorem keysA_cons (a : α) (b : β) (t : List (α × β)) :
    keysA ((a, b) :: t) = a :: keysA t := rfl

theorem mem_keysA_of_mem {m : List (α × β)} {k : α} {v : β}
    (h : (k, v) ∈ m) : k ∈ keysA m := by
  simpa [keysA] using List.mem_map_of_mem Prod.fst h

theorem lookupA_some_mem_keysA (m : List (α × β)) (k : α) (v : β)
    (h : lookupA m k = some v) : k ∈ keysA m := by
  induction m with
  | nil => simp [lookupA] at h
  | cons hd t ih =>
    obtain ⟨ka, va⟩ := hd
    by_cases hk : ka = k
    · subst hk; simp
    · simp only [lookupA, if_neg hk] at h
      simp [ih h]

theorem lookupA_insertA_self (m : List (α × β)) (k : α) (v : β) :
    lookupA (insertA m k v) k = some v := by
  induction m with
  | nil => simp [insertA, lookupA]
  | cons hd t ih =>
    obtain ⟨ka, va⟩ := hd
    by_cases hk : ka = k <;> simp [insertA, lookupA, hk, ih]

theorem lookupA_insertA_ne (m : List (α × β)) (k k' : α) (v : β) (h : k' ≠ k) :
    lookupA (insertA m k v) k' = lookupA m k' := by
  have hne : ¬(k = k') := fun h' => h h'.symm
  induction m with
  | nil => simp [insertA, lookupA, hne]
  | cons hd t ih =>
    obtain ⟨ka, va⟩ := hd
    by_cases hk : ka = k
    · subst hk
      simp [insertA, lookupA, hne]
    · by_cases hk' : ka = k'
      · subst hk'
        simp [insertA, lookupA, hk]
      · simp [insertA, lookupA, hk, hk', ih]

theorem eraseA_sublist (m : List (α × β)) (k : α) : (eraseA m k).Sublist m := by
  induction m with
  | nil => simp [eraseA]
  | cons hd t ih =>
    obtain ⟨ka, va⟩ := hd
    by_cases hk : ka = k
    · rw [show eraseA ((ka, va) :: t) k = t from by simp [eraseA, hk]]
      exact List.sublist_cons_self (ka, va) t
    · simpa [eraseA, hk] using List.Sublist.cons₂ (ka, va) ih

theorem keysA_eraseA_sublist (m : List (α × β)) (k : α) :
    (keysA (eraseA m k)).Sublist (keysA m) :=
  List.Sublist.map Prod.fst (eraseA_sublist m k)

theorem keysA_eraseA_nodup (m : List (α × β)) (k : α)
    (h : (keysA m).Nodup) : (keysA (eraseA m k)).Nodup :=
  h.sublist (keysA_eraseA_sublist m k)

theorem lookupA_eraseA_self (m : List (α × β)) (k : α) (h : (keysA m).Nodup) :
    lookupA (eraseA m k) k = none := by
  induction m with
  | nil => simp [eraseA, lookupA]
  | cons hd t ih =>
    obtain ⟨ka, va⟩ := hd
    simp only [keysA_cons, List.nodup_cons] at h
    by_cases hk : ka = k
    · subst hk
      have he : eraseA ((ka, va) :: t) ka = t := by simp [eraseA]
      rw [he]
      cases hl : lookupA t ka with
      | none => rfl
      | some v => exact absurd (lookupA_some_mem_keysA t ka v hl) h.1
    · simp [eraseA, lookupA, hk, ih h.2]

theorem lookupA_eraseA_ne (m : List (α × β)) (k k' : α) (h : k' ≠ k) :
    lookupA (eraseA m k) k' = lookupA m k' := by
  induction m with
  | nil => simp [eraseA]
  | cons hd t ih =>
    obtain ⟨ka, va⟩ := hd
    by_cases hk : ka = k
    · subst hk
      have hne : ¬(ka = k') := fun h' => h h'.symm
      simp [eraseA, lookupA, hne]
    · by_cases hk' : ka = k'
      · subst hk'
        simp [eraseA, lookupA, hk]
      · simp [eraseA, lookupA, hk, hk', ih]

theorem mem_keysA_insertA (m : List (α × β)) (k k' : α) (v : β) :
    k' ∈ keysA (insertA m k v) ↔ k' = k ∨ k' ∈ keysA m := by
  induction m with
  | nil => simp [insertA]
  | cons hd t ih =>
    obtain ⟨ka, va⟩ := hd
    by_cases hk : ka = k
    · subst hk
      have he : insertA ((ka, va) :: t) ka v = (ka, v) :: t := by simp [insertA]
      rw [he]
      simp only [keysA_cons, List.mem_cons]
      tauto
    · simp only [insertA, if_neg hk, keysA_cons, List.mem_cons, ih]
      tauto

theorem keysA_insertA_nodup (m : List (α × β)) (k : α) (v : β)
    (h : (keysA m).Nodup) : (keysA (insertA m k v)).Nodup := by
  induction m with
  | nil => simp [insertA]
  | cons hd t ih =>
    obtain ⟨ka, va⟩ := hd
    simp only [keysA_cons, List.nodup_cons] at h
    by_cases hk : ka = k
    · subst hk
      simpa [insertA] using h
    · simp only [insertA, if_neg hk, keysA_cons, List.nodup_cons]
      refine ⟨fun hm => ?_, ih h.2⟩
      rcases (mem_keysA_insertA t k ka v).mp hm with h' | h'
      · exact hk h'
      · exact h.1 h'

theorem mem_iff_lookupA_of_nodup (m : List (α × β)) (k : α) (v : β)
    (h : (keysA m).Nodup) : (k, v) ∈ m ↔ lookupA m k = some v := by
  induction m with
  | nil => simp [lookupA]
  | cons hd t ih =>
    obtain ⟨ka, va⟩ := hd
    simp only [keysA_cons, List.nodup_cons] at h
    by_cases hk : ka = k
    · subst hk
      have hl : lookupA ((ka, va) :: t) ka = some va := by simp [lookupA]
      rw [hl]
      simp only [List.mem_cons, Option.some_inj]
      constructor
      · rintro (heq | hmem)
        · injection heq with h1 h2
          exact h2.symm
        · exact absurd (mem_keysA_of_mem hmem) h.1
      · intro hv
        exact Or.inl (by rw [hv])
    · simp only [List.mem_cons, lookupA, if_neg hk]
      rw [← ih h.2]
      constructor
      · rintro (heq | hmem)
        · exact absurd (congrArg Prod.fst heq).symm hk
        · exact hmem
      · exact Or.inr

end AssocMapLemmas

/-! ### Parser lemmas (claim C5) -/

theorem extractSegmentsGo_eq_filterMap (fuel : Nat) :
    ∀ rest : GoStr,
      extractSegmentsGo fuel rest = (segmentTextsGo fuel rest).filterMap classifySegment := by
  induction fuel with
  | zero => intro rest; simp [extractSegmentsGo, segmentTextsGo]
  | succ n ih =>
    intro rest
    simp only [extractSegmentsGo, segmentTextsGo]
    cases hidx : goIndexOf vaultSentinel rest with
    | none => simp
    | some idx =>
      simp only [List.filterMap_cons]
      cases hc : classifySegment
          (match goIndexOf vaultSentinel (rest.drop (idx + 6)) with
           | some next => (rest.drop (idx + 6)).take next
           | none => rest.drop (idx + 6)) with
      | none => simp [hc, ih]
      | some seg => simp [hc, ih]

theorem extract_eq_filterMap_segmentTexts (value : GoStr) :
    extractVaultSecretSegments value = (segmentTexts value).filterMap classifySegment :=
  extractSegmentsGo_eq_filterMap value.length value

theorem isAllDigits_guard_eq (l : GoStr) :
    (if l ≠ [] ∧ isAllDigits l = true then true else false) =
      (decide (l ≠ []) && l.all (fun c => c.isDigit) && decide (digitsVal l < 2 ^ 64)) := by
  have hrw : (decide (l ≠ []) && l.all (fun c => c.isDigit) &&
      decide (digitsVal l < 2 ^ 64)) = goParseUint64Ok l := rfl
  rw [hrw]
  by_cases hl : l = []
  · subst hl
    simp [goParseUint64Ok]
  · cases hAD : isAllDigits l with
    | true =>
      have hpu : goParseUint64Ok l = true := by
        simpa [isAllDigits, hl] using hAD
      rw [if_pos ⟨hl, rfl⟩, hpu]
    | false =>
      have hpu : goParseUint64Ok l = false := by
        simpa [isAllDigits, hl] using hAD
      rw [if_neg (by simp), hpu]

theorem classifySegment_flag_eq (segment path : GoStr) (flag : Bool)
    (h : classifySegment segment = some { path := path, isVersioned := flag }) :
    flag = amendedVersionedCond segment := by
  cases hidx : goIndexOf ['#'] segment with
  | none => simp [classifySegment, hidx] at h
  | some firstHash =>
    simp only [classifySegment, hidx] at h
    by_cases hp : segment.take firstHash = []
    · rw [if_pos hp] at h
      exact Option.noConfusion h
    · rw [if_neg hp] at h
      simp only [Option.some_inj, VaultSecretSegment.mk.injEq] at h
      obtain ⟨hpath, hflag⟩ := h
      simp only [amendedVersionedCond, hidx]
      rw [← hflag]
      by_cases hr : segment.drop (firstHash + 1) = []
      · simp [hr]
      · rw [if_neg hr, if_neg hr]
        by_cases hlen : 2 ≤ (goSplitOn '#' (segment.drop (firstHash + 1))).length
        · rw [if_pos hlen, if_pos hlen]
          exact isAllDigits_guard_eq _
        · rw [if_neg hlen, if_neg hlen]

/-- Claim C5, counterexample: the segment a#f#99999999999999999999 has an
additional '#'-part whose last part is non-empty and all ASCII digits, so
the claim requires isVersioned = true; the code emits isVersioned = false,
because strconv.ParseUint rejects the 20-digit value as out of the
unsigned 64-bit range. -/
theorem reloader_c5_counterexample :
    extractVaultSecretSegments "vault:a#f#99999999999999999999".data =
      [{ path := "a".data, isVersioned := false }] ∧
    segmentTexts "vault:a#f#99999999999999999999".data =
      ["a#f#99999999999999999999".data] ∧
    specVersionedAllDigits "a#f#99999999999999999999".data = true := by
  decide

/-- Claim C5 (amended): every emitted segment is the classification of one
of the vault:-anchored segment texts of the input, and a segment is
emitted with isVersioned = true if and only if it has at least one
additional '#'-part whose last part is non-empty, consists entirely of
ASCII digits, and has a value below 2 to the 64 (the range accepted by
strconv.ParseUint with bit size 64); in all other cases - no extra part,
empty last part, a non-digit character, or a digit string out of unsigned
64-bit range - the segment is emitted with isVersioned = false. -/
theorem reloader_c5_segment_versioned :
    (∀ value : GoStr,
      extractVaultSecretSegments value = (segmentTexts value).filterMap classifySegment) ∧
    (∀ segText path flag,
      classifySegment segText = some { path := path, isVersioned := flag } →
      (flag = true ↔ amendedVersionedCond segText = true)) := by
  constructor
  · exact extract_eq_filterMap_segmentTexts
  · intro segText path flag h
    rw [classifySegment_flag_eq segText path flag h]

/-- Claim C5 witness: the amended theorem applied to the concrete segment
a#f#7, which is classified as versioned. -/
theorem reloader_c5_segment_versioned_witness :
    amendedVersionedCond "a#f#7".data = true :=
  (reloader_c5_segment_versioned.2 "a#f#7".data "a".data true (by decide)).mp rfl

/-! ### Annotation fallback (claim C4) -/

/-- Claim C4, counterexample: with the primary key present and non-empty
(value foo, which yields no vault: segments and hence no paths) and the
deprecated alias set to vault:b#f, the result is the path b taken from the
deprecated alias, not the empty result the primary key's value alone
yields. -/
theorem reloader_c4_counterexample :
    lookupA [(vaultFromPathAnnotKey, "foo"),
             (vaultEnvFromPathAnnotKeyDeprecated, "vault:b#f")]
        vaultFromPathAnnotKey = some "foo" ∧
    ("foo" : String) ≠ "" ∧
    collectSecretsFromAnnotations
        [(vaultFromPathAnnotKey, "foo"),
         (vaultEnvFromPathAnnotKeyDeprecated, "vault:b#f")] = ["b".data] ∧
    collectSecretsFromAnnotations [(vaultFromPathAnnotKey, "foo")] = [] := by
  decide

/-- Claim C4 (amended): the deprecated alias key is consulted exactly when
the primary annotation key's value yields no unversioned paths - in
particular, but not only, when the primary key is absent or its value is
the empty string; whenever the primary key's entries yield at least one
path, the result is computed from the primary key's value alone. -/
theorem reloader_c4_deprecated_fallback (annotations : AnnotMap) :
    (primaryAnnotPaths annotations ≠ [] →
      collectSecretsFromAnnotations annotations = primaryAnnotPaths annotations) ∧
    (primaryAnnotPaths annotations = [] →
      collectSecretsFromAnnotations annotations = deprecatedAnnotPaths annotations) ∧
    (lookupD annotations vaultFromPathAnnotKey "" = "" →
      primaryAnnotPaths annotations = []) := by
  refine ⟨fun hne => ?_, fun he => ?_, fun hempty => ?_⟩
  · unfold collectSecretsFromAnnotations primaryAnnotPaths at *
    rw [if_neg hne]
  · unfold collectSecretsFromAnnotations primaryAnnotPaths deprecatedAnnotPaths at *
    rw [if_pos he]
  · unfold primaryAnnotPaths
    simp [hempty]

/-- Claim C4 witness: with a single-entry primary annotation vault:a#f the
result is the primary branch alone. -/
theorem reloader_c4_deprecated_fallback_witness :
    collectSecretsFromAnnotations [(vaultFromPathAnnotKey, "vault:a#f")] =
      primaryAnnotPaths [(vaultFromPathAnnotKey, "vault:a#f")] :=
  (reloader_c4_deprecated_fallback [(vaultFromPathAnnotKey, "vault:a#f")]).1 (by decide)

/-! ### Lost opt-in annotation (claim C3) -/

/-- Claim C3, counterexample: a tracked workload receives an update event
whose pod template lacks the opt-in annotation; handleObject returns the
store unchanged, so the workload is still present in the index, whereas
the claim requires it to be removed as a delete event would. -/
theorem reloader_c3_counterexample :
    handleObject
      [({ name := "web", ns := "default", kind := "Deployment" }, ["secret/data/mysql".data])]
      (.deployment "web" "default"
        { annots := some [], containers := [], initContainers := [] }) =
      .ok [({ name := "web", ns := "default", kind := "Deployment" },
            ["secret/data/mysql".data])] ∧
    lookupA
      ([({ name := "web", ns := "default", kind := "Deployment" },
          ["secret/data/mysql".data])] : WorkloadSecretsMap)
      ({ name := "web", ns := "default", kind := "Deployment" } : Workload) ≠ none := by
  decide

/-- Claim C3 (amended): an informer add or update event whose pod template
lacks the opt-in annotation (value not exactly "true") leaves the index
unchanged - the workload, if tracked, remains in byWorkload and remains
eligible for restarts; moreover even a delete event for such an object
leaves the index unchanged, since handleObjectDelete also skips objects
without the annotation. -/
theorem reloader_c3_lost_annot_keeps_index (store : WorkloadSecretsMap)
    (obj : InformerObject) (w : Workload) (tpl : PodTemplate)
    (hobj : informerWorkloadData obj = some (w, tpl))
    (hannot : lookupD (tpl.annots.getD []) secretReloadAnnotKey "" ≠ "true") :
    handleObject store obj = .ok store ∧
    handleObjectDelete store obj = store := by
  constructor
  · unfold handleObject
    rw [hobj]
    exact if_pos hannot
  · unfold handleObjectDelete
    rw [hobj]
    exact if_pos hannot

/-- Claim C3 witness: the amended theorem applied to a concrete tracked
store and an update event without the annotation. -/
theorem reloader_c3_lost_annot_keeps_index_witness :
    handleObject
      [({ name := "web", ns := "default", kind := "Deployment" }, ["secret/data/mysql".data])]
      (.deployment "web" "default"
        { annots := some [(vaultFromPathAnnotKey, "x")], containers := [], initContainers := [] }) =
      .ok [({ name := "web", ns := "default", kind := "Deployment" },
            ["secret/data/mysql".data])] ∧
    handleObjectDelete
      [({ name := "web", ns := "default", kind := "Deployment" }, ["secret/data/mysql".data])]
      (.deployment "web" "default"
        { annots := some [(vaultFromPathAnnotKey, "x")], containers := [], initContainers := [] }) =
      [({ name := "web", ns := "default", kind := "Deployment" }, ["secret/data/mysql".data])] :=
  reloader_c3_lost_annot_keeps_index _ _
    ({ name := "web", ns := "default", kind := "Deployment" } : Workload)
    ({ annots := some [(vaultFromPathAnnotKey, "x")], containers := [],
       initContainers := [] } : PodTemplate)
    (by decide) (by decide)

/-! ### Reload-count increment (claim C9) -/

/-- Claim C9, counterexample: on a pod template whose annotation map is nil
the increment panics (Go write to a nil map) instead of producing "1"; and
at the maximal 64-bit count the increment wraps to a negative value, not
the decimal representation of n plus one. -/
theorem reloader_c9_counterexample :
    incrementReloadCountAnnot none = .panicked ∧
    goParseInt64 "9223372036854775807".data = some 9223372036854775807 ∧
    incrementReloadCountAnnot (some [(reloadCountAnnotKey, "9223372036854775807")]) =
      .ok [(reloadCountAnnotKey, "-9223372036854775808")] ∧
    ("-9223372036854775808" : String) ≠ "9223372036854775808" := by
  decide

/-- Claim C9 (amended): for every pod template whose annotation map is
non-nil, incrementing the reload-count annotation yields "1" when the
annotation is absent or empty, "1" when its current value does not parse
as a 64-bit integer, and the decimal representation of n plus one computed
with 64-bit wraparound when its current value parses as integer n; no
annotation other than the reload-count annotation is modified.  A nil
annotation map makes the write panic. -/
theorem reloader_c9_increment (m : AnnotMap) :
    (lookupD m reloadCountAnnotKey "" = "" →
      incrementReloadCountAnnot (some m) = .ok (insertA m reloadCountAnnotKey "1")) ∧
    (∀ s : String, lookupD m reloadCountAnnotKey "" = s → s ≠ "" →
      goParseInt64 s.data = none →
      incrementReloadCountAnnot (some m) = .ok (insertA m reloadCountAnnotKey "1")) ∧
    (∀ (s : String) (n : Int), lookupD m reloadCountAnnotKey "" = s → s ≠ "" →
      goParseInt64 s.data = some n →
      incrementReloadCountAnnot (some m) =
        .ok (insertA m reloadCountAnnotKey (goItoa (wrap64 (n + 1))))) ∧
    (∀ res k, incrementReloadCountAnnot (some m) = .ok res → k ≠ reloadCountAnnotKey →
      lookupA res k = lookupA m k) ∧
    incrementReloadCountAnnot none = .panicked := by
  refine ⟨fun he => ?_, fun s hs hne hp => ?_, fun s n hs hne hp => ?_,
    fun res k hres hk => ?_, rfl⟩
  · simp [incrementReloadCountAnnot, he]
  · subst hs
    simp [incrementReloadCountAnnot, hne, hp]
  · subst hs
    simp [incrementReloadCountAnnot, hne, hp]
  · unfold incrementReloadCountAnnot at hres
    simp only [PanicOr.ok.injEq] at hres
    rw [← hres]
    exact lookupA_insertA_ne m reloadCountAnnotKey k _ hk

/-- Claim C9 witness: the amended theorem applied to a concrete map whose
count is "41", producing "42". -/
theorem reloader_c9_increment_witness :
    incrementReloadCountAnnot (some [(reloadCountAnnotKey, "41")]) =
      .ok (insertA [(reloadCountAnnotKey, "41")] reloadCountAnnotKey
        (goItoa (wrap64 (41 + 1)))) :=
  (reloader_c9_increment [(reloadCountAnnotKey, "41")]).2.2.1 "41" 41
    (by decide) (by decide) (by decide)

/-! ### Secret-read classification (claim C8) -/

/-- Claim C8: the spec requires a lease-less response without well-typed
metadata.version to produce a classification error, never a panic.  The
reloader's reader getSecretVersionFromVault panics on both shapes
(unchecked type assertions), while getSecretInfoFromVault implements the
intended error returns for the same inputs. -/
theorem reloader_c8_metadata_panic :
    getSecretVersionFromVault
        (.found { leaseID := "", leaseDuration := 0, renewable := false, data := [] }) =
      .panicked ∧
    getSecretVersionFromVault
        (.found { leaseID := "", leaseDuration := 0, renewable := false,
                  data := [("metadata", .strMap [])] }) =
      .panicked ∧
    getSecretInfoFromVault 0 []
        (.found { leaseID := "", leaseDuration := 0, renewable := false, data := [] }) =
      .error .missingMetadata ∧
    getSecretInfoFromVault 0 []
        (.found { leaseID := "", leaseDuration := 0, renewable := false,
                  data := [("metadata", .strMap [])] }) =
      .error .missingVersionField := by
  refine ⟨rfl, rfl, rfl, rfl⟩

/-! ### Snapshot aliasing (claim C6) -/

theorem getD_set_self {γ : Type} :
    ∀ (l : List γ) (r : Nat) (v d : γ), r < l.length →
      (l.set r v).getD r d = v := by
  intro l
  induction l with
  | nil => intro r v d hr; simp at hr
  | cons c t ih =>
    intro r v d hr
    cases r with
    | zero => simp [List.set]
    | succ r' =>
      simp only [List.set, List.getD_cons_succ]
      exact ih r' v d (by simpa using hr)

theorem readCell_writeCell_self (h : GoHeap) (r : Nat) (v : WorkloadSecretsMap)
    (hr : r < h.cells.length) : readCell (writeCell h r v) r = v :=
  getD_set_self h.cells r v [] hr

theorem applyStoreOp_readCell (st : WorkloadSecretsHandle) (h : GoHeap)
    (op : StoreOp) (hr : st.mapRef < h.cells.length) :
    readCell (applyStoreOp st h op) st.mapRef =
      applyStoreOpPure (readCell h st.mapRef) op := by
  cases op with
  | storeOp w secrets =>
    exact readCell_writeCell_self h st.mapRef _ hr
  | deleteOp w =>
    exact readCell_writeCell_self h st.mapRef _ hr

theorem applyStoreOp_length (st : WorkloadSecretsHandle) (h : GoHeap)
    (op : StoreOp) : (applyStoreOp st h op).cells.length = h.cells.length := by
  cases op with
  | storeOp w secrets => simp [applyStoreOp, storeWorkloadSecrets, writeCell]
  | deleteOp w => simp [applyStoreOp, deleteWorkloadSecrets, writeCell]

theorem applyStoreOps_readCell (st : WorkloadSecretsHandle) :
    ∀ (ops : List StoreOp) (h : GoHeap), st.mapRef < h.cells.length →
      readCell (applyStoreOps st h ops) st.mapRef =
        applyStoreOpsPure (readCell h st.mapRef) ops := by
  intro ops
  induction ops with
  | nil => intro h hr; rfl
  | cons op rest ih =>
    intro h hr
    have hlen : st.mapRef < (applyStoreOp st h op).cells.length := by
      rw [applyStoreOp_length]; exact hr
    have hstep := applyStoreOp_readCell st h op hr
    calc readCell (applyStoreOps st h (op :: rest)) st.mapRef
        = readCell (applyStoreOps st (applyStoreOp st h op) rest) st.mapRef := rfl
      _ = applyStoreOpsPure (readCell (applyStoreOp st h op) st.mapRef) rest := ih _ hlen
      _ = applyStoreOpsPure (applyStoreOpPure (readCell h st.mapRef) op) rest := by rw [hstep]
      _ = applyStoreOpsPure (readCell h st.mapRef) (op :: rest) := rfl

/-- Claim C6, counterexample: a snapshot taken via GetWorkloadSecretsMap
before a Delete is the internal map itself; after the Delete the map read
through the snapshot reference no longer contains the workload, so the
snapshot is not an owned copy. -/
theorem reloader_c6_counterexample :
    ¬ (readCell
        (deleteWorkloadSecrets
          ⟨[[({ name := "web", ns := "default", kind := "Deployment" },
              ["secret/data/mysql".data])]]⟩
          ⟨0⟩ { name := "web", ns := "default", kind := "Deployment" })
        (getWorkloadSecretsMap ⟨0⟩) =
      readCell
        ⟨[[({ name := "web", ns := "default", kind := "Deployment" },
            ["secret/data/mysql".data])]]⟩
        (getWorkloadSecretsMap ⟨0⟩)) := by
  decide

/-- Claim C6 (amended): GetWorkloadSecretsMap returns the store's internal
map by reference, without taking the lock and without copying; for every
sequence of later Store and Delete operations, reading through the
returned reference observes exactly the fully mutated map (the pure
result of applying those operations), not the state at snapshot time.
Only GetSecretWorkloadsMap builds a fresh owned map. -/
theorem reloader_c6_snapshot_aliases (st : WorkloadSecretsHandle) (h : GoHeap)
    (ops : List StoreOp) (hr : st.mapRef < h.cells.length) :
    readCell (applyStoreOps st h ops) (getWorkloadSecretsMap st) =
      applyStoreOpsPure (readCell h st.mapRef) ops :=
  applyStoreOps_readCell st ops h hr

/-- Claim C6 witness: the amended theorem applied to a concrete store and
one Delete. -/
theorem reloader_c6_snapshot_aliases_witness :
    readCell
      (applyStoreOps ⟨0⟩
        ⟨[[({ name := "web", ns := "default", kind := "Deployment" },
            ["secret/data/mysql".data])]]⟩
        [.deleteOp { name := "web", ns := "default", kind := "Deployment" }])
      (getWorkloadSecretsMap ⟨0⟩) =
    applyStoreOpsPure
      (readCell
        ⟨[[({ name := "web", ns := "default", kind := "Deployment" },
            ["secret/data/mysql".data])]]⟩ 0)
      [.deleteOp { name := "web", ns := "default", kind := "Deployment" }] :=
  reloader_c6_snapshot_aliases ⟨0⟩ _ _ (by decide)

/-! ### Inverse map (claim C7) -/

theorem mem_buildInner (w0 : Workload) :
    ∀ (paths : List GoStr) (acc : List (GoStr × List Workload)) (x : Workload) (s : GoStr),
      x ∈ lookupD
          (paths.foldl
            (fun acc2 secretPath =>
              insertA acc2 secretPath (lookupD acc2 secretPath [] ++ [w0])) acc) s [] ↔
        x ∈ lookupD acc s [] ∨ (x = w0 ∧ s ∈ paths) := by
  intro paths
  induction paths with
  | nil => intro acc x s; simp
  | cons p rest ih =>
    intro acc x s
    rw [List.foldl_cons, ih]
    by_cases hs : s = p
    · subst hs
      have h1 : lookupD (insertA acc s (lookupD acc s [] ++ [w0])) s [] =
          lookupD acc s [] ++ [w0] := by
        simp [lookupD, lookupA_insertA_self]
      rw [h1]
      simp only [List.mem_append, List.mem_singleton, List.mem_cons]
      tauto
    · have h1 : lookupD (insertA acc p (lookupD acc p [] ++ [w0])) s [] =
          lookupD acc s [] := by
        simp [lookupD, lookupA_insertA_ne acc p s _ hs]
      rw [h1]
      simp only [List.mem_cons]
      tauto

theorem mem_buildSecretWorkloads_aux :
    ∀ (m : WorkloadSecretsMap) (acc : List (GoStr × List Workload))
      (x : Workload) (s : GoStr),
      x ∈ lookupD
          (m.foldl
            (fun acc entry =>
              entry.2.foldl
                (fun acc2 secretPath =>
                  insertA acc2 secretPath (lookupD acc2 secretPath [] ++ [entry.1]))
                acc) acc) s [] ↔
        x ∈ lookupD acc s [] ∨ ∃ e ∈ m, x = e.1 ∧ s ∈ e.2 := by
  intro m
  induction m with
  | nil => intro acc x s; simp
  | cons e rest ih =>
    intro acc x s
    rw [List.foldl_cons, ih, mem_buildInner]
    simp only [List.mem_cons]
    constructor
    · rintro (( hacc | hnew) | ⟨e', he', hx, hs⟩)
      · exact Or.inl hacc
      · exact Or.inr ⟨e, Or.inl rfl, hnew⟩
      · exact Or.inr ⟨e', Or.inr he', hx, hs⟩
    · rintro (hacc | ⟨e', (rfl | he'), hx, hs⟩)
      · exact Or.inl (Or.inl hacc)
      · exact Or.inl (Or.inr ⟨hx, hs⟩)
      · exact Or.inr ⟨e', he', hx, hs⟩

theorem mem_buildSecretWorkloads (m : WorkloadSecretsMap) (x : Workload) (s : GoStr) :
    x ∈ lookupD (buildSecretWorkloads m) s [] ↔ ∃ e ∈ m, x = e.1 ∧ s ∈ e.2 := by
  rw [show buildSecretWorkloads m =
      m.foldl
        (fun acc entry =>
          entry.2.foldl
            (fun acc2 secretPath =>
              insertA acc2 secretPath (lookupD acc2 secretPath [] ++ [entry.1]))
            acc) [] from rfl,
    mem_buildSecretWorkloads_aux]
  simp [lookupD, lookupA]

theorem keysA_applyStoreOpsPure_nodup :
    ∀ (ops : List StoreOp) (m : WorkloadSecretsMap), (keysA m).Nodup →
      (keysA (applyStoreOpsPure m ops)).Nodup := by
  intro ops
  induction ops with
  | nil => intro m hm; exact hm
  | cons op rest ih =>
    intro m hm
    cases op with
    | storeOp w secrets => exact ih _ (keysA_insertA_nodup m w secrets hm)
    | deleteOp w => exact ih _ (keysA_eraseA_nodup m w hm)

/-- Claim C7: starting from a freshly created store, after any finite
sequence of Store and Delete operations the derived secret-to-workloads
map is exactly the inverse of the workload-to-secrets map: a workload
appears in the list for a secret path if and only if that path appears in
the workload's stored secret list. -/
theorem reloader_c7_inverse_index (ops : List StoreOp) (x : Workload) (s : GoStr) :
    x ∈ lookupD (getSecretWorkloadsMap (applyStoreOps ⟨0⟩ ⟨[[]]⟩ ops) ⟨0⟩) s [] ↔
      ∃ secrets, lookupA (readCell (applyStoreOps ⟨0⟩ ⟨[[]]⟩ ops) 0) x = some secrets ∧
        s ∈ secrets := by
  have hread : readCell (applyStoreOps ⟨0⟩ ⟨[[]]⟩ ops) 0 =
      applyStoreOpsPure [] ops :=
    applyStoreOps_readCell ⟨0⟩ ops ⟨[[]]⟩ (by decide)
  have hnodup : (keysA (applyStoreOpsPure ([] : WorkloadSecretsMap) ops)).Nodup :=
    keysA_applyStoreOpsPure_nodup ops [] (by simp)
  rw [show getSecretWorkloadsMap (applyStoreOps ⟨0⟩ ⟨[[]]⟩ ops) ⟨0⟩ =
      buildSecretWorkloads (readCell (applyStoreOps ⟨0⟩ ⟨[[]]⟩ ops) 0) from rfl]
  rw [hread, mem_buildSecretWorkloads]
  constructor
  · rintro ⟨e, he, rfl, hs⟩
    exact ⟨e.2, (mem_iff_lookupA_of_nodup _ e.1 e.2 hnodup).mp he, hs⟩
  · rintro ⟨secrets, hl, hs⟩
    exact ⟨(x, secrets), (mem_iff_lookupA_of_nodup _ x secrets hnodup).mpr hl, rfl, hs⟩

/-! ### Reloader round lemmas (claims C1 and C10) -/

theorem mem_markWorkload (l : List Workload) (w x : Workload) :
    x ∈ markWorkload l w ↔ x ∈ l ∨ x = w := by
  unfold markWorkload
  by_cases hw : w ∈ l
  · rw [if_pos hw]
    constructor
    · exact Or.inl
    · rintro (hx | rfl)
      · exact hx
      · exact hw
  · rw [if_neg hw]
    simp

theorem nodup_markWorkload (l : List Workload) (w : Workload) (h : l.Nodup) :
    (markWorkload l w).Nodup := by
  unfold markWorkload
  by_cases hw : w ∈ l
  · rwa [if_pos hw]
  · rw [if_neg hw]
    simpa [List.nodup_append] using ⟨h, hw⟩

theorem mem_foldl_markWorkload :
    ∀ (ws : List Workload) (l : List Workload) (x : Workload),
      x ∈ ws.foldl markWorkload l ↔ x ∈ l ∨ x ∈ ws := by
  intro ws
  induction ws with
  | nil => intro l x; simp
  | cons w rest ih =>
    intro l x
    rw [List.foldl_cons, ih, mem_markWorkload]
    simp only [List.mem_cons]
    tauto

theorem nodup_foldl_markWorkload :
    ∀ (ws : List Workload) (l : List Workload), l.Nodup →
      (ws.foldl markWorkload l).Nodup := by
  intro ws
  induction ws with
  | nil => intro l h; exact h
  | cons w rest ih =>
    intro l h
    exact ih _ (nodup_markWorkload l w h)

theorem reloaderStep_marks (read : GoStr → VaultVersionRead)
    (stored : List (GoStr × Int)) (st : ReloaderRoundState)
    (e : GoStr × List Workload) (x : Workload) :
    x ∈ (reloaderStep read stored st e).workloadsToReload ↔
      x ∈ st.workloadsToReload ∨
      ((∃ v, read e.1 = .ok v ∧ lookupD stored e.1 0 ≠ 0 ∧ lookupD stored e.1 0 ≠ v) ∧
        x ∈ e.2) := by
  unfold reloaderStep
  cases hr : read e.1 with
  | notFound => simp [hr]
  | failed => simp [hr]
  | ok cv =>
    dsimp only
    by_cases h0 : lookupD stored e.1 0 = 0
    · simp [h0, hr]
    · by_cases heq : lookupD stored e.1 0 = cv
      · rw [if_neg h0, if_pos heq]
        simp [hr, heq, h0]
      · rw [if_neg h0, if_neg heq]
        simp only [mem_foldl_markWorkload]
        constructor
        · rintro (hx | hx)
          · exact Or.inl hx
          · exact Or.inr ⟨⟨cv, rfl, h0, heq⟩, hx⟩
        · rintro (hx | ⟨_, hx⟩)
          · exact Or.inl hx
          · exact Or.inr hx

theorem reloaderStep_marks_nodup (read : GoStr → VaultVersionRead)
    (stored : List (GoStr × Int)) (st : ReloaderRoundState)
    (e : GoStr × List Workload) (h : st.workloadsToReload.Nodup) :
    (reloaderStep read stored st e).workloadsToReload.Nodup := by
  unfold reloaderStep
  cases read e.1 with
  | notFound => exact h
  | failed => exact h
  | ok cv =>
    dsimp only
    by_cases h0 : lookupD stored e.1 0 = 0
    · simpa [h0]
    · by_cases heq : lookupD stored e.1 0 = cv
      · rw [if_neg h0, if_pos heq]
        exact h
      · rw [if_neg h0, if_neg heq]
        exact nodup_foldl_markWorkload e.2 _ h

theorem reloaderStep_versions_ne (read : GoStr → VaultVersionRead)
    (stored : List (GoStr × Int)) (st : ReloaderRoundState)
    (e : GoStr × List Workload) (p : GoStr) (hne : p ≠ e.1) :
    lookupA (reloaderStep read stored st e).newSecretVersions p =
      lookupA st.newSecretVersions p := by
  unfold reloaderStep
  cases read e.1 with
  | notFound => rfl
  | failed => rfl
  | ok cv =>
    dsimp only
    by_cases h0 : lookupD stored e.1 0 = 0
    · simp [h0, lookupA_insertA_ne _ _ _ _ hne]
    · by_cases heq : lookupD stored e.1 0 = cv
      · rw [if_neg h0, if_pos heq]
        exact lookupA_insertA_ne _ _ _ _ hne
      · rw [if_neg h0, if_neg heq]
        exact lookupA_insertA_ne _ _ _ _ hne

theorem reloaderStep_versions_ok (read : GoStr → VaultVersionRead)
    (stored : List (GoStr × Int)) (st : ReloaderRoundState)
    (e : GoStr × List Workload) (v : Int) (hv : read e.1 = .ok v) :
    lookupA (reloaderStep read stored st e).newSecretVersions e.1 = some v := by
  unfold reloaderStep
  rw [hv]
  dsimp only
  by_cases h0 : lookupD stored e.1 0 = 0
  · simp [h0, lookupA_insertA_self]
  · by_cases heq : lookupD stored e.1 0 = v
    · rw [if_neg h0, if_pos heq]
      exact lookupA_insertA_self _ _ _
    · rw [if_neg h0, if_neg heq]
      exact lookupA_insertA_self _ _ _

theorem reloaderStep_fail (read : GoStr → VaultVersionRead)
    (stored : List (GoStr × Int)) (st : ReloaderRoundState)
    (e : GoStr × List Workload) (hfail : (read e.1).isOk = false) :
    reloaderStep read stored st e = st := by
  unfold reloaderStep
  cases hr : read e.1 with
  | notFound => rfl
  | failed => rfl
  | ok cv => rw [hr] at hfail; simp [VaultVersionRead.isOk] at hfail

theorem lookupA_eq_none_of_not_mem_keysA {α β : Type} [DecidableEq α]
    (m : List (α × β)) (k : α) (h : k ∉ keysA m) : lookupA m k = none := by
  cases hl : lookupA m k with
  | none => rfl
  | some v => exact absurd (lookupA_some_mem_keysA m k v hl) h

theorem exists_of_mem_keysA {α β : Type} [DecidableEq α]
    (m : List (α × β)) (k : α) (h : k ∈ keysA m) : ∃ v, (k, v) ∈ m := by
  simp only [keysA, List.mem_map] at h
  obtain ⟨e, he, hk⟩ := h
  exact ⟨e.2, by rwa [show (k, e.2) = e from by rw [← hk]]⟩

theorem roundMarks_mem (read : GoStr → VaultVersionRead)
    (stored : List (GoStr × Int)) :
    ∀ (entries : List (GoStr × List Workload)) (st0 : ReloaderRoundState)
      (x : Workload),
      x ∈ (entries.foldl (reloaderStep read stored) st0).workloadsToReload ↔
        x ∈ st0.workloadsToReload ∨
        ∃ e ∈ entries,
          (∃ v, read e.1 = .ok v ∧ lookupD stored e.1 0 ≠ 0 ∧ lookupD stored e.1 0 ≠ v) ∧
          x ∈ e.2 := by
  intro entries
  induction entries with
  | nil => intro st0 x; simp
  | cons e rest ih =>
    intro st0 x
    rw [List.foldl_cons, ih, reloaderStep_marks]
    simp only [List.mem_cons]
    constructor
    · rintro ((hx | hx) | ⟨e', he', hc, hx⟩)
      · exact Or.inl hx
      · exact Or.inr ⟨e, Or.inl rfl, hx⟩
      · exact Or.inr ⟨e', Or.inr he', hc, hx⟩
    · rintro (hx | ⟨e', (rfl | he'), hc, hx⟩)
      · exact Or.inl (Or.inl hx)
      · exact Or.inl (Or.inr ⟨hc, hx⟩)
      · exact Or.inr ⟨e', he', hc, hx⟩

theorem roundMarks_nodup (read : GoStr → VaultVersionRead)
    (stored : List (GoStr × Int)) :
    ∀ (entries : List (GoStr × List Workload)) (st0 : ReloaderRoundState),
      st0.workloadsToReload.Nodup →
      (entries.foldl (reloaderStep read stored) st0).workloadsToReload.Nodup := by
  intro entries
  induction entries with
  | nil => intro st0 h; exact h
  | cons e rest ih =>
    intro st0 h
    exact ih _ (reloaderStep_marks_nodup read stored st0 e h)

theorem roundVersions_frame (read : GoStr → VaultVersionRead)
    (stored : List (GoStr × Int)) :
    ∀ (entries : List (GoStr × List Workload)) (st0 : ReloaderRoundState)
      (p : GoStr), lookupA entries p = none →
      lookupA ((entries.foldl (reloaderStep read stored) st0).newSecretVersions) p =
        lookupA st0.newSecretVersions p := by
  intro entries
  induction entries with
  | nil => intro st0 p _; rfl
  | cons e rest ih =>
    intro st0 p hnone
    obtain ⟨e1, e2⟩ := e
    by_cases hk : e1 = p
    · rw [show lookupA ((e1, e2) :: rest) p = some e2 from by simp [lookupA, hk]] at hnone
      cases hnone
    · have hrest : lookupA rest p = none := by
        rwa [show lookupA ((e1, e2) :: rest) p = lookupA rest p from by
          simp [lookupA, hk]] at hnone
      rw [List.foldl_cons, ih _ p hrest]
      exact reloaderStep_versions_ne read stored st0 (e1, e2) p (fun h => hk h.symm)

theorem roundVersions_ok (read : GoStr → VaultVersionRead)
    (stored : List (GoStr × Int)) :
    ∀ (entries : List (GoStr × List Workload)) (st0 : ReloaderRoundState)
      (p : GoStr) (ws : List Workload) (v : Int),
      (keysA entries).Nodup → (p, ws) ∈ entries → read p = .ok v →
      lookupA ((entries.foldl (reloaderStep read stored) st0).newSecretVersions) p =
        some v := by
  intro entries
  induction entries with
  | nil => intro st0 p ws v _ hm; simp at hm
  | cons e rest ih =>
    intro st0 p ws v hnodup hm hv
    rw [show keysA (e :: rest) = e.1 :: keysA rest from rfl, List.nodup_cons] at hnodup
    rw [List.foldl_cons]
    rcases List.mem_cons.mp hm with rfl | hm'
    · rw [roundVersions_frame read stored rest _ p
        (lookupA_eq_none_of_not_mem_keysA rest p hnodup.1)]
      exact reloaderStep_versions_ok read stored st0 (p, ws) v hv
    · exact ih _ p ws v hnodup.2 hm' hv

theorem roundVersions_fail (read : GoStr → VaultVersionRead)
    (stored : List (GoStr × Int)) :
    ∀ (entries : List (GoStr × List Workload)) (st0 : ReloaderRoundState)
      (p : GoStr) (ws : List Workload),
      (keysA entries).Nodup → (p, ws) ∈ entries → (read p).isOk = false →
      lookupA ((entries.foldl (reloaderStep read stored) st0).newSecretVersions) p =
        lookupA st0.newSecretVersions p := by
  intro entries
  induction entries with
  | nil => intro st0 p ws _ hm; simp at hm
  | cons e rest ih =>
    intro st0 p ws hnodup hm hfail
    rw [show keysA (e :: rest) = e.1 :: keysA rest from rfl, List.nodup_cons] at hnodup
    rw [List.foldl_cons]
    rcases List.mem_cons.mp hm with rfl | hm'
    · rw [roundVersions_frame read stored rest _ p
        (lookupA_eq_none_of_not_mem_keysA rest p hnodup.1)]
      rw [reloaderStep_fail read stored st0 (p, ws) hfail]
    · have hne : p ≠ e.1 := by
        intro h
        exact absurd (h ▸ mem_keysA_of_mem hm') hnodup.1
      rw [ih _ p ws hnodup.2 hm' hfail]
      exact reloaderStep_versions_ne read stored st0 e p hne

/-- Claim C1: in a reloader round over the secret-to-workloads snapshot,
(a) if the backend returns for every tracked path exactly the stored
last-known version, no workload is marked for reload; and (b) if exactly
one tracked path p0 has a non-zero stored version differing from its
current version - every other path reading back unchanged or having no
stored version - then the marked set is exactly the workloads indexed
under p0, and the set is duplicate-free, so each such workload is reloaded
at most once in the round. -/
theorem reloader_c1_one_changed_path (read : GoStr → VaultVersionRead)
    (stored : List (GoStr × Int)) (entries : List (GoStr × List Workload)) :
    ((∀ e ∈ entries, read e.1 = .ok (lookupD stored e.1 0)) →
      (runReloaderRound read stored entries).workloadsToReload = []) ∧
    (∀ (p0 : GoStr) (ws0 : List Workload) (v0 : Int),
      (keysA entries).Nodup → (p0, ws0) ∈ entries →
      lookupD stored p0 0 ≠ 0 → read p0 = .ok v0 → v0 ≠ lookupD stored p0 0 →
      (∀ e ∈ entries, e.1 ≠ p0 →
        (read e.1).isOk = true ∧
        (lookupD stored e.1 0 = 0 ∨ read e.1 = .ok (lookupD stored e.1 0))) →
      (∀ x, x ∈ (runReloaderRound read stored entries).workloadsToReload ↔ x ∈ ws0) ∧
      (runReloaderRound read stored entries).workloadsToReload.Nodup) := by
  constructor
  · intro hsame
    rw [List.eq_nil_iff_forall_not_mem]
    intro x hx
    rw [show runReloaderRound read stored entries =
        entries.foldl (reloaderStep read stored)
          { workloadsToReload := [], newSecretVersions := [] } from rfl,
      roundMarks_mem] at hx
    rcases hx with hx | ⟨e, he, ⟨v, hv, _, hvne⟩, _⟩
    · cases hx
    · rw [hsame e he] at hv
      injection hv with hv
      exact hvne hv
  · intro p0 ws0 v0 hnodup hmem h0 hread hvne hothers
    have hiff : ∀ x,
        x ∈ (runReloaderRound read stored entries).workloadsToReload ↔ x ∈ ws0 := by
      intro x
      rw [show runReloaderRound read stored entries =
          entries.foldl (reloaderStep read stored)
            { workloadsToReload := [], newSecretVersions := [] } from rfl,
        roundMarks_mem]
      constructor
      · rintro (hx | ⟨e, he, ⟨v, hv, hst0, hstv⟩, hx⟩)
        · cases hx
        · by_cases hp : e.1 = p0
          · have he2 : e.2 = ws0 := by
              have h1 : lookupA entries e.1 = some e.2 :=
                (mem_iff_lookupA_of_nodup entries e.1 e.2 hnodup).mp
                  (by rwa [show (e.1, e.2) = e from rfl])
              have h2 : lookupA entries p0 = some ws0 :=
                (mem_iff_lookupA_of_nodup entries p0 ws0 hnodup).mp hmem
              rw [hp] at h1
              rw [h1] at h2
              injection h2
            rwa [he2] at hx
          · obtain ⟨hok, hunchanged⟩ := hothers e he hp
            rcases hunchanged with hz | hu
            · exact absurd hz hst0
            · rw [hu] at hv
              injection hv with hv
              exact absurd hv hstv
      · intro hx
        exact Or.inr ⟨(p0, ws0), hmem,
          ⟨v0, hread, h0, fun h => hvne h.symm⟩, hx⟩
    refine ⟨hiff, ?_⟩
    rw [show runReloaderRound read stored entries =
        entries.foldl (reloaderStep read stored)
          { workloadsToReload := [], newSecretVersions := [] } from rfl]
    exact roundMarks_nodup read stored entries _ (by simp)

/-- Claim C1 witness: two tracked paths, version of the first changed from
1 to 2; exactly its two workloads are marked, without duplicates. -/
theorem reloader_c1_one_changed_path_witness :
    (∀ x, x ∈ (runReloaderRound
        (fun p => if p = "a".data then .ok 2 else .ok 5)
        [("a".data, 1), ("b".data, 5)]
        [("a".data, [{ name := "w1", ns := "d", kind := "Deployment" },
                     { name := "w2", ns := "d", kind := "StatefulSet" }]),
         ("b".data, [{ name := "w1", ns := "d", kind := "Deployment" }])]).workloadsToReload ↔
      x ∈ [({ name := "w1", ns := "d", kind := "Deployment" } : Workload),
           { name := "w2", ns := "d", kind := "StatefulSet" }]) ∧
    (runReloaderRound
        (fun p => if p = "a".data then .ok 2 else .ok 5)
        [("a".data, 1), ("b".data, 5)]
        [("a".data, [{ name := "w1", ns := "d", kind := "Deployment" },
                     { name := "w2", ns := "d", kind := "StatefulSet" }]),
         ("b".data, [{ name := "w1", ns := "d", kind := "Deployment" }])]).workloadsToReload.Nodup :=
  (reloader_c1_one_changed_path _ _ _).2 "a".data
    [{ name := "w1", ns := "d", kind := "Deployment" },
     { name := "w2", ns := "d", kind := "StatefulSet" }] 2
    (by decide) (by decide) (by decide) (by decide) (by decide) (by decide)

/-- Claim C10: after a completed round, the replacement last-known-versions
map contains exactly the tracked paths read successfully this round, with
the version each read returned; and a tracked path whose read failed loses
its stored version, so a following round in which every other path is
unchanged marks no workload at all, even though the failed path's version
may have changed in the meantime. -/
theorem reloader_c10_failed_read_drops_version
    (read1 read2 : GoStr → VaultVersionRead) (stored : List (GoStr × Int))
    (entries : List (GoStr × List Workload)) :
    ((keysA entries).Nodup →
      ∀ p v, lookupA (runReloaderRound read1 stored entries).newSecretVersions p = some v ↔
        ∃ ws, (p, ws) ∈ entries ∧ read1 p = .ok v) ∧
    ((keysA entries).Nodup →
      ∀ (p : GoStr) (ws : List Workload), (p, ws) ∈ entries → (read1 p).isOk = false →
      (∀ e ∈ entries, e.1 = p ∨
        read2 e.1 =
          .ok (lookupD (runReloaderRound read1 stored entries).newSecretVersions e.1 0)) →
      (runReloaderRound read2 (runReloaderRound read1 stored entries).newSecretVersions
          entries).workloadsToReload = []) := by
  have hunfold : runReloaderRound read1 stored entries =
      entries.foldl (reloaderStep read1 stored)
        { workloadsToReload := [], newSecretVersions := [] } := rfl
  have hiff : (keysA entries).Nodup →
      ∀ p v, lookupA (runReloaderRound read1 stored entries).newSecretVersions p = some v ↔
        ∃ ws, (p, ws) ∈ entries ∧ read1 p = .ok v := by
    intro hnodup p v
    constructor
    · intro hl
      by_cases hk : p ∈ keysA entries
      · obtain ⟨ws, hws⟩ := exists_of_mem_keysA entries p hk
        cases hro : read1 p with
        | ok v' =>
          have := roundVersions_ok read1 stored entries
            { workloadsToReload := [], newSecretVersions := [] } p ws v' hnodup hws hro
          rw [hunfold, this] at hl
          injection hl with hl
          exact ⟨ws, hws, by rw [hl]⟩
        | notFound =>
          have := roundVersions_fail read1 stored entries
            { workloadsToReload := [], newSecretVersions := [] } p ws hnodup hws
            (by rw [hro]; rfl)
          rw [hunfold, this] at hl
          cases hl
        | failed =>
          have := roundVersions_fail read1 stored entries
            { workloadsToReload := [], newSecretVersions := [] } p ws hnodup hws
            (by rw [hro]; rfl)
          rw [hunfold, this] at hl
          cases hl
      · have := roundVersions_frame read1 stored entries
          { workloadsToReload := [], newSecretVersions := [] } p
          (lookupA_eq_none_of_not_mem_keysA entries p hk)
        rw [hunfold, this] at hl
        cases hl
    · rintro ⟨ws, hws, hro⟩
      rw [hunfold]
      exact roundVersions_ok read1 stored entries _ p ws v hnodup hws hro
  refine ⟨hiff, ?_⟩
  intro hnodup p ws hmem hfail hunchanged
  rw [List.eq_nil_iff_forall_not_mem]
  intro x hx
  rw [show runReloaderRound read2 (runReloaderRound read1 stored entries).newSecretVersions
        entries =
      entries.foldl
        (reloaderStep read2 (runReloaderRound read1 stored entries).newSecretVersions)
        { workloadsToReload := [], newSecretVersions := [] } from rfl,
    roundMarks_mem] at hx
  rcases hx with hx | ⟨e, he, ⟨v, hv, hst0, hstv⟩, _⟩
  · cases hx
  · rcases hunchanged e he with hp | hu
    · have hnone :
          lookupA (runReloaderRound read1 stored entries).newSecretVersions e.1 = none := by
        cases hl : lookupA (runReloaderRound read1 stored entries).newSecretVersions e.1 with
        | none => rfl
        | some v' =>
          obtain ⟨ws', hws', hro⟩ := (hiff hnodup e.1 v').mp hl
          rw [hp] at hro
          rw [hro] at hfail
          simp [VaultVersionRead.isOk] at hfail
      rw [show lookupD (runReloaderRound read1 stored entries).newSecretVersions e.1 0 =
          (lookupA (runReloaderRound read1 stored entries).newSecretVersions e.1).getD 0
          from rfl, hnone] at hst0
      exact hst0 rfl
    · rw [hu] at hv
      injection hv with hv
      exact absurd hv hstv

/-- Claim C10 witness: path a fails to read in round one, so it is absent
from the new versions map; in round two it reads version 7 while path b is
unchanged, and no workload is marked. -/
theorem reloader_c10_failed_read_drops_version_witness :
    (runReloaderRound
        (fun p => if p = "a".data then .ok 7 else .ok 1)
        (runReloaderRound (fun p => if p = "a".data then .failed else .ok 1)
          [("a".data, 3), ("b".data, 1)]
          [("a".data, [{ name := "w1", ns := "d", kind := "Deployment" }]),
           ("b".data, [{ name := "w2", ns := "d", kind := "Deployment" }])]).newSecretVersions
        [("a".data, [{ name := "w1", ns := "d", kind := "Deployment" }]),
         ("b".data, [{ name := "w2", ns := "d", kind := "Deployment" }])]).workloadsToReload =
      [] :=
  (reloader_c10_failed_read_drops_version
      (fun p => if p = "a".data then .failed else .ok 1)
      (fun p => if p = "a".data then .ok 7 else .ok 1)
      [("a".data, 3), ("b".data, 1)]
      [("a".data, [{ name := "w1", ns := "d", kind := "Deployment" }]),
       ("b".data, [{ name := "w2", ns := "d", kind := "Deployment" }])]).2
    (by decide) "a".data [{ name := "w1", ns := "d", kind := "Deployment" }]
    (by decide) (by decide) (by decide)

/-! ### Dynamic-TTL threshold (claim C2, modelled from the spec) -/

theorem phaseB_mem (threshold : ℚ) (now : Int)
    (tracking : List (Workload × WorkloadTrackingInfo)) :
    ∀ (workloads marked : List Workload) (x : Workload),
      x ∈ phaseBMarkTTL threshold now tracking workloads marked ↔
        x ∈ marked ∨
        (x ∈ workloads ∧ ∃ info, lookupA tracking x = some info ∧
          info.shortestDynamicTTL ≠ 0 ∧
          threshold * (info.shortestDynamicTTL : ℚ) ≤
            ((now - info.lastRestartTime : Int) : ℚ)) := by
  intro workloads
  induction workloads with
  | nil => intro marked x; simp [phaseBMarkTTL]
  | cons w rest ih =>
    intro marked x
    have hstep : phaseBMarkTTL threshold now tracking (w :: rest) marked =
        phaseBMarkTTL threshold now tracking rest
          (match lookupA tracking w with
           | none => marked
           | some info =>
             if info.shortestDynamicTTL ≠ 0 ∧
                 threshold * (info.shortestDynamicTTL : ℚ) ≤
                   ((now - info.lastRestartTime : Int) : ℚ)
             then markWorkload marked w
             else marked) := rfl
    rw [hstep, ih]
    have hone : ∀ (x : Workload),
        (x ∈ (match lookupA tracking w with
           | none => marked
           | some info =>
             if info.shortestDynamicTTL ≠ 0 ∧
                 threshold * (info.shortestDynamicTTL : ℚ) ≤
                   ((now - info.lastRestartTime : Int) : ℚ)
             then markWorkload marked w
             else marked)) ↔
          x ∈ marked ∨
          (x = w ∧ ∃ info, lookupA tracking w = some info ∧
            info.shortestDynamicTTL ≠ 0 ∧
            threshold * (info.shortestDynamicTTL : ℚ) ≤
              ((now - info.lastRestartTime : Int) : ℚ)) := by
      intro y
      cases hl : lookupA tracking w with
      | none => simp [hl]
      | some info =>
        dsimp only
        by_cases hc : info.shortestDynamicTTL ≠ 0 ∧
            threshold * (info.shortestDynamicTTL : ℚ) ≤
              ((now - info.lastRestartTime : Int) : ℚ)
        · rw [if_pos hc, mem_markWorkload]
          constructor
          · rintro (hy | rfl)
            · exact Or.inl hy
            · exact Or.inr ⟨rfl, info, rfl, hc⟩
          · rintro (hy | ⟨rfl, info', hinfo', hc'⟩)
            · exact Or.inl hy
            · exact Or.inr rfl
        · rw [if_neg hc]
          constructor
          · exact Or.inl
          · rintro (hy | ⟨rfl, info', hinfo', h1, h2⟩)
            · exact hy
            · injection hinfo' with hinfo'
              exact absurd ⟨hinfo' ▸ h1, hinfo' ▸ h2⟩ hc
    rw [hone]
    simp only [List.mem_cons]
    constructor
    · rintro ((hy | ⟨rfl, hcond⟩) | ⟨hy, hcond⟩)
      · exact Or.inl hy
      · exact Or.inr ⟨Or.inl rfl, hcond⟩
      · exact Or.inr ⟨Or.inr hy, hcond⟩
    · rintro (hy | ⟨(rfl | hy), hcond⟩)
      · exact Or.inl (Or.inl hy)
      · exact Or.inl (Or.inr ⟨rfl, hcond⟩)
      · exact Or.inr ⟨hy, hcond⟩

/-- Claim C2: in the TTL phase of a reloader round (modelled from the spec,
see phaseBMarkTTL), a tracked workload whose shortest dynamic TTL is
T greater than zero and whose tracked last restart lies t seconds in the
past is marked for restart if and only if t is at least threshold times T,
unless it was already marked by a KV version change in the same round, in
which case it stays marked; workloads with no tracking entry are skipped
(marked exactly when already marked). -/
theorem reloader_c2_ttl_threshold (threshold : ℚ) (now : Int)
    (tracking : List (Workload × WorkloadTrackingInfo))
    (workloads marked : List Workload) (w : Workload) :
    (∀ info : WorkloadTrackingInfo, w ∈ workloads → lookupA tracking w = some info →
      0 < info.shortestDynamicTTL → w ∉ marked →
      (w ∈ phaseBMarkTTL threshold now tracking workloads marked ↔
        threshold * (info.shortestDynamicTTL : ℚ) ≤
          ((now - info.lastRestartTime : Int) : ℚ))) ∧
    (w ∈ marked → w ∈ phaseBMarkTTL threshold now tracking workloads marked) ∧
    (lookupA tracking w = none →
      (w ∈ phaseBMarkTTL threshold now tracking workloads marked ↔ w ∈ marked)) := by
  refine ⟨fun info hw hinfo hpos hnm => ?_, fun hm => ?_, fun hnone => ?_⟩
  · rw [phaseB_mem]
    constructor
    · rintro (hm | ⟨_, info', hinfo', h1, h2⟩)
      · exact absurd hm hnm
      · rw [hinfo] at hinfo'
        injection hinfo' with hinfo'
        exact hinfo' ▸ h2
    · intro hle
      exact Or.inr ⟨hw, info, hinfo, by omega, hle⟩
  · rw [phaseB_mem]
    exact Or.inl hm
  · rw [phaseB_mem]
    constructor
    · rintro (hm | ⟨_, info', hinfo', _⟩)
      · exact hm
      · rw [hnone] at hinfo'
        cases hinfo'
    · exact Or.inl

/-- Claim C2 witness: threshold 7/10, TTL 1000 seconds, last restart 700
seconds before now; the workload is marked. -/
theorem reloader_c2_ttl_threshold_witness :
    ({ name := "w", ns := "d", kind := "Deployment" } : Workload) ∈
      phaseBMarkTTL (7 / 10) 12000
        [({ name := "w", ns := "d", kind := "Deployment" },
          { lastRestartTime := 11300, shortestDynamicTTL := 1000 })]
        [{ name := "w", ns := "d", kind := "Deployment" }] [] :=
  ((reloader_c2_ttl_threshold (7 / 10) 12000
      [({ name := "w", ns := "d", kind := "Deployment" },
        { lastRestartTime := 11300, shortestDynamicTTL := 1000 })]
      [{ name := "w", ns := "d", kind := "Deployment" }] []
      { name := "w", ns := "d", kind := "Deployment" }).1
    { lastRestartTime := 11300, shortestDynamicTTL := 1000 }
    (by decide) (by decide) (by decide) (by decide)).mpr (by norm_num)
